import Mathlib

set_option autoImplicit false

universe u

/-! Verification of the field-metadata layer
(`crates/milli/src/fields_ids_map/metadata.rs`) and of the v1.13 → v1.14
upgrade step (`crates/milli/src/update/upgrade/v1_14.rs`).

Conventions of the embedding:
- Rust aborts (an `unwrap` of `None`, a failed integer narrowing) are modelled
  by `Option`-valued functions returning `none`.
- `NonZeroU16` is modelled as a `Nat` that is kept in `1 ≤ v ≤ 65535` by
  construction.
- The external pattern matcher (`crate::is_faceted_by`; the pattern grammar is
  out of scope per the spec) is passed as a function parameter `is_faceted_by`,
  and a rule carries its `match_str` matcher as a function field.
- External collaborators whose code is not under `src/` (the name⇄id table,
  the configuration accessors of `Index`, the rule payload types, the upgrade
  pipeline driver) are modelled from the spec; their doc comments say so.
-/

/-- Result of matching one attribute pattern against a field name; interface of
the external collaborator `crate::attribute_patterns::PatternMatch` (spec §6). -/
inductive PatternMatch where
  | Match
  | NoMatch
  | Parent
  deriving DecidableEq

/-- Spec-modelled (external type `FilterableAttributesFeatures`, not under
`src/`): the feature flags of a filterable-attributes rule, with an
all-disabled default (spec §4.2). -/
structure FilterableAttributesFeatures where
  filter : Bool
  facet_search : Bool
  deriving DecidableEq

/-- Rust `FilterableAttributesFeatures::no_features`: the all-disabled value. -/
def FilterableAttributesFeatures.no_features : FilterableAttributesFeatures :=
  { filter := false, facet_search := false }

/-- Rust `FilterableAttributesFeatures::is_filterable`. -/
def FilterableAttributesFeatures.is_filterable (f : FilterableAttributesFeatures) : Bool :=
  f.filter

/-- Rust `FilterableAttributesFeatures::is_facet_searchable`. -/
def FilterableAttributesFeatures.is_facet_searchable (f : FilterableAttributesFeatures) :
    Bool :=
  f.facet_search

/-- Spec-modelled (external type, not under `src/`): a filterable-attributes
rule, a pattern with feature flags; the matcher is carried as the function
field `match_str` (spec §3, §6). -/
structure FilterableAttributesRule where
  match_str : String → PatternMatch
  features : FilterableAttributesFeatures

/-- Spec-modelled (external type, not under `src/`): a localized-attributes
rule, a pattern with a set of language tags (spec §3, §6). -/
structure LocalizedAttributesRule where
  match_str : String → PatternMatch
  locales : List String

/-- Rust `Iterator::position`: the index of the first element satisfying `p`. -/
def position {α : Type u} (p : α → Bool) : List α → Option Nat
  | [] => none
  | a :: l => if p a then some 0 else (position p l).map (· + 1)

/-- Per-field classification (`Metadata` in `metadata.rs`); the two rule ids
model `Option<NonZeroU16>` as an `Option Nat` holding `1 ≤ v ≤ 65535`. -/
structure Metadata where
  searchable : Bool
  sortable : Bool
  localized_attributes_rule_id : Option Nat
  filterable_attributes_rule_id : Option Nat
  deriving DecidableEq

/-- Rust `Metadata::locales`: resolves the localized rule id against `rules`.
Here `some none` models returning `None` (absent id, via `?`), and `none`
models the `rules.get(id - 1).unwrap()` abort on an out-of-range id. -/
def Metadata.locales (m : Metadata) (rules : List LocalizedAttributesRule) :
    Option (Option (List String)) :=
  match m.localized_attributes_rule_id with
  | none => some none
  | some id =>
    match rules.get? (id - 1) with
    | none => none
    | some rule => some (some rule.locales)

/-- Rust `Metadata::filterable_attributes`: same shape as `locales`, over the
filterable-rule sequence, returning the whole matched rule. -/
def Metadata.filterable_attributes (m : Metadata)
    (rules : List FilterableAttributesRule) :
    Option (Option FilterableAttributesRule) :=
  match m.filterable_attributes_rule_id with
  | none => some none
  | some id =>
    match rules.get? (id - 1) with
    | none => none
    | some rule => some (some rule)

/-- Rust `Metadata::filterable_attributes_features`: the features of the
matched rule, or `no_features` when no rule matched; the abort of
`filterable_attributes` propagates. -/
def Metadata.filterable_attributes_features (m : Metadata)
    (rules : List FilterableAttributesRule) : Option FilterableAttributesFeatures :=
  (m.filterable_attributes rules).map (fun o =>
    match o with
    | some rule => rule.features
    | none => FilterableAttributesFeatures.no_features)

/-- Rust `Metadata::is_sortable`. -/
def Metadata.is_sortable (m : Metadata) : Bool := m.sortable

/-- Rust `Metadata::is_searchable`. -/
def Metadata.is_searchable (m : Metadata) : Bool := m.searchable

/-- Rust `Metadata::is_faceted`: true when the field is sortable, filterable or
facet searchable; the abort of resolving the filterable features propagates. -/
def Metadata.is_faceted (m : Metadata) (rules : List FilterableAttributesRule) :
    Option Bool :=
  if m.is_sortable then some true
  else
    (m.filterable_attributes_features rules).map (fun features =>
      if features.is_filterable then true
      else if features.is_facet_searchable then true
      else false)

/-- The `MetadataBuilder` of `metadata.rs`: owns the four rule collections.
The Rust `HashSet<String>` of sortable attributes is modelled as a
`List String`; only membership via `any` is ever used, so iteration order is
irrelevant. -/
structure MetadataBuilder where
  searchable_attributes : Option (List String)
  filterable_attributes : List FilterableAttributesRule
  sortable_attributes : List String
  localized_attributes : Option (List LocalizedAttributesRule)

/-- Spec-modelled (external, not under `src/`): the persisted configuration
store — an `Index` together with a read transaction (spec §6). Each accessor
may fail with a storage error (spec §7), modelled as `Except String`. -/
structure Index where
  user_defined_searchable_fields : Except String (Option (List String))
  filterable_attributes_rules : Except String (List FilterableAttributesRule)
  sortable_fields : Except String (List String)
  localized_attributes_rules : Except String (Option (List LocalizedAttributesRule))

/-- Rust `MetadataBuilder::from_index`: load the four collections; a loaded
searchable list containing the wildcard pattern collapses to `none`. The Rust
`fields.into_iter().map(|s| s.to_string()).collect()` is an ownership
conversion and is the identity here. -/
def MetadataBuilder.from_index (index : Index) : Except String MetadataBuilder := do
  let uds ← index.user_defined_searchable_fields
  let searchable_attributes :=
    match uds with
    | some fields => if fields.contains "*" then none else some fields
    | none => none
  let filterable_attributes ← index.filterable_attributes_rules
  let sortable_attributes ← index.sortable_fields
  let localized_attributes ← index.localized_attributes_rules
  pure { searchable_attributes, filterable_attributes, sortable_attributes,
         localized_attributes }

/-- The value bound of `u16`: a `NonZeroU16` holds `1 ..= 65535`. -/
def u16Max : Nat := 65535

/-- The encoding step
`NonZeroU16::new(id.saturating_add(1).try_into().unwrap()).unwrap()` of
`metadata_for_field`: `try_into::<u16>` aborts (`none`) when `id + 1` exceeds
`u16Max`; the `NonZeroU16` construction then always succeeds since
`id + 1 ≥ 1`. -/
def encodeRuleRef (id : Nat) : Option Nat :=
  if id + 1 ≤ u16Max then some (id + 1) else none

/-- Lifts `encodeRuleRef` over the optional scan position: a missing position
is the legitimate absent reference, a present position aborts iff it does not
fit in the `NonZeroU16`. -/
def encodeRuleRefOpt (pos : Option Nat) : Option (Option Nat) :=
  match pos with
  | none => some none
  | some id => (encodeRuleRef id).map some

/-- Rust `MetadataBuilder::metadata_for_field`: classify one field name.
The parameter `is_faceted_by` abstracts `crate::is_faceted_by` (external
pattern matcher, spec §6); `none` models the abort of the `NonZeroU16`
encoding on an over-long rule scan. The Rust
`self.localized_attributes.iter().flat_map(|v| v.iter())` over the option is
`getD []`. -/
def MetadataBuilder.metadata_for_field (is_faceted_by : String → String → Bool)
    (b : MetadataBuilder) (field : String) : Option Metadata :=
  let searchable :=
    match b.searchable_attributes with
    | some attributes => attributes.any (fun pattern => is_faceted_by field pattern)
    | none => true
  let sortable := b.sortable_attributes.any (fun pattern => is_faceted_by field pattern)
  match encodeRuleRefOpt (position
      (fun rule => decide (rule.match_str field = PatternMatch.Match))
      (b.localized_attributes.getD [])) with
  | none => none
  | some localized_attributes_rule_id =>
    match encodeRuleRefOpt (position
        (fun rule => decide (rule.match_str field = PatternMatch.Match))
        b.filterable_attributes) with
    | none => none
    | some filterable_attributes_rule_id =>
      some { searchable, sortable, localized_attributes_rule_id,
             filterable_attributes_rule_id }

/-- Rust `MetadataBuilder::searchable_attributes` (read accessor). -/
def MetadataBuilder.searchable_attributes_ref (b : MetadataBuilder) : Option (List String) :=
  b.searchable_attributes

/-- Rust `MetadataBuilder::sortable_attributes` (read accessor). -/
def MetadataBuilder.sortable_attributes_ref (b : MetadataBuilder) : List String :=
  b.sortable_attributes

/-- Rust `MetadataBuilder::filterable_attributes` (read accessor). -/
def MetadataBuilder.filterable_attributes_ref (b : MetadataBuilder) :
    List FilterableAttributesRule :=
  b.filterable_attributes

/-- Rust `MetadataBuilder::localized_attributes_rules` (read accessor). -/
def MetadataBuilder.localized_attributes_rules (b : MetadataBuilder) :
    Option (List LocalizedAttributesRule) :=
  b.localized_attributes

/-- Spec-modelled (external `FieldsIdsMap`, not under `src/`; spec §6): the
name⇄id table. Ids are allocated sequentially from 0, a known name keeps its
id, and `insert` yields `none` exactly when the 16-bit id space is exhausted,
leaving the table unchanged. The table is the list of names in id order. -/
structure FieldsIdsMap where
  names : List String
  deriving DecidableEq

/-- Spec-modelled: capacity of the 16-bit `FieldId` space. -/
def fieldIdCapacity : Nat := 65536

/-- Spec-modelled: `FieldsIdsMap::id`. -/
def FieldsIdsMap.id (m : FieldsIdsMap) (name : String) : Option Nat :=
  position (fun n => n == name) m.names

/-- Spec-modelled: `FieldsIdsMap::name`. -/
def FieldsIdsMap.name (m : FieldsIdsMap) (id : Nat) : Option String :=
  m.names.get? id

/-- Spec-modelled: `FieldsIdsMap::len`. -/
def FieldsIdsMap.len (m : FieldsIdsMap) : Nat := m.names.length

/-- Spec-modelled: `FieldsIdsMap::is_empty`. -/
def FieldsIdsMap.is_empty (m : FieldsIdsMap) : Bool := m.names.isEmpty

/-- Spec-modelled: `FieldsIdsMap::insert` — allocate (or look up) the id of
`name`; `none` exactly on id-space exhaustion. -/
def FieldsIdsMap.insert (m : FieldsIdsMap) (name : String) : Option (Nat × FieldsIdsMap) :=
  match m.id name with
  | some id => some (id, m)
  | none =>
    if m.names.length < fieldIdCapacity then
      some (m.names.length, ⟨m.names ++ [name]⟩)
    else none

/-- Spec-modelled: ordered `FieldsIdsMap` iteration over `(id, name)` pairs. -/
def FieldsIdsMap.iter (m : FieldsIdsMap) : List (Nat × String) :=
  (List.range m.names.length).zip m.names

/-- Sorted association list modelling `BTreeMap<FieldId, Metadata>`: insertion
keeps keys strictly increasing and replaces an existing key. -/
def btInsert (k : Nat) (v : Metadata) : List (Nat × Metadata) → List (Nat × Metadata)
  | [] => [(k, v)]
  | (k', v') :: t =>
    if k < k' then (k, v) :: (k', v') :: t
    else if k = k' then (k, v) :: t
    else (k', v') :: btInsert k v t

/-- Lookup in the association-list model of the `BTreeMap`. -/
def btGet (k : Nat) : List (Nat × Metadata) → Option Metadata
  | [] => none
  | (k', v) :: t => if k = k' then some v else btGet k t

/-- Rust `collect()` into a `BTreeMap`, processing entries left to right. -/
def btFromList (l : List (Nat × Metadata)) : List (Nat × Metadata) :=
  l.foldl (fun acc kv => btInsert kv.1 kv.2 acc) []

/-- Option-valued map over a list, aborting on the first `none`; used to model
an iteration whose body may abort. -/
def mapOpt {α : Type u} {β : Type u} (f : α → Option β) : List α → Option (List β)
  | [] => some []
  | a :: l =>
    match f a with
    | none => none
    | some b => (mapOpt f l).map (fun t => b :: t)

/-- The `FieldIdMapWithMetadata` of `metadata.rs`: the name⇄id table, the owned
builder, and the id → `Metadata` map. -/
structure FieldIdMapWithMetadata where
  fields_ids_map : FieldsIdsMap
  builder : MetadataBuilder
  metadata : List (Nat × Metadata)

/-- Rust `FieldIdMapWithMetadata::new`: classify every already-known field of
the existing table; `none` models an abort inside `metadata_for_field`. -/
def FieldIdMapWithMetadata.new (is_faceted_by : String → String → Bool)
    (existing_fields_ids_map : FieldsIdsMap) (builder : MetadataBuilder) :
    Option FieldIdMapWithMetadata :=
  (mapOpt
      (fun p => (builder.metadata_for_field is_faceted_by p.2).map (fun md => (p.1, md)))
      existing_fields_ids_map.iter).map
    (fun entries =>
      { fields_ids_map := existing_fields_ids_map, builder,
        metadata := btFromList entries })

/-- Rust `FieldIdMapWithMetadata::as_fields_ids_map`. -/
def FieldIdMapWithMetadata.as_fields_ids_map (m : FieldIdMapWithMetadata) : FieldsIdsMap :=
  m.fields_ids_map

/-- Rust `FieldIdMapWithMetadata::len`. -/
def FieldIdMapWithMetadata.len (m : FieldIdMapWithMetadata) : Nat :=
  m.fields_ids_map.len

/-- Rust `FieldIdMapWithMetadata::is_empty`. -/
def FieldIdMapWithMetadata.is_empty (m : FieldIdMapWithMetadata) : Bool :=
  m.fields_ids_map.is_empty

/-- Rust `FieldIdMapWithMetadata::insert`: delegate id allocation to the table,
then classify and store. The inner `Option Nat` is the Rust return value
(`none` = id space exhausted, propagated by `?` with no other change); the
outer `Option` models an abort inside `metadata_for_field`. -/
def FieldIdMapWithMetadata.insert (is_faceted_by : String → String → Bool)
    (m : FieldIdMapWithMetadata) (name : String) :
    Option (Option Nat × FieldIdMapWithMetadata) :=
  match m.fields_ids_map.insert name with
  | none => some (none, m)
  | some (id, t) =>
    match m.builder.metadata_for_field is_faceted_by name with
    | none => none
    | some md =>
      some (some id,
        { fields_ids_map := t, builder := m.builder,
          metadata := btInsert id md m.metadata })

/-- Rust `FieldIdMapWithMetadata::id`. -/
def FieldIdMapWithMetadata.id (m : FieldIdMapWithMetadata) (name : String) : Option Nat :=
  m.fields_ids_map.id name

/-- Rust `FieldIdMapWithMetadata::metadata` (named `metadata_of` here because
the structure field of the same name takes the accessor name in Lean). -/
def FieldIdMapWithMetadata.metadata_of (m : FieldIdMapWithMetadata) (id : Nat) :
    Option Metadata :=
  btGet id m.metadata

/-- Rust `FieldIdMapWithMetadata::id_with_metadata`; the outer `Option` models
the `self.metadata(id).unwrap()` abort. -/
def FieldIdMapWithMetadata.id_with_metadata (m : FieldIdMapWithMetadata) (name : String) :
    Option (Option (Nat × Metadata)) :=
  match m.fields_ids_map.id name with
  | none => some none
  | some id => (m.metadata_of id).map (fun md => some (id, md))

/-- Rust `FieldIdMapWithMetadata::name`. -/
def FieldIdMapWithMetadata.name (m : FieldIdMapWithMetadata) (id : Nat) : Option String :=
  m.fields_ids_map.name id

/-- Rust `FieldIdMapWithMetadata::name_with_metadata`; the outer `Option`
models the `self.metadata(id).unwrap()` abort. -/
def FieldIdMapWithMetadata.name_with_metadata (m : FieldIdMapWithMetadata) (id : Nat) :
    Option (Option (String × Metadata)) :=
  match m.fields_ids_map.name id with
  | none => some none
  | some name => (m.metadata_of id).map (fun md => some (name, md))

/-- Rust `FieldIdMapWithMetadata::iter`; `none` models the
`self.metadata(id).unwrap()` abort on a missing metadata entry. -/
def FieldIdMapWithMetadata.iter (m : FieldIdMapWithMetadata) :
    Option (List (Nat × String × Metadata)) :=
  mapOpt (fun p => (m.metadata_of p.1).map (fun md => (p.1, p.2, md)))
    m.fields_ids_map.iter

/-- Rust `FieldIdMapWithMetadata::iter_id_metadata` (the map already is the id
→ metadata association in id order). -/
def FieldIdMapWithMetadata.iter_id_metadata (m : FieldIdMapWithMetadata) :
    List (Nat × Metadata) :=
  m.metadata

/-- Rust `FieldIdMapWithMetadata::iter_metadata`. -/
def FieldIdMapWithMetadata.iter_metadata (m : FieldIdMapWithMetadata) : List Metadata :=
  m.metadata.map Prod.snd

/-- Rust `FieldIdMapWithMetadata::metadata_builder`. -/
def FieldIdMapWithMetadata.metadata_builder (m : FieldIdMapWithMetadata) : MetadataBuilder :=
  m.builder

/-- States reachable through `new` followed by any sequence of non-aborting
`insert` calls. -/
inductive Reachable (is_faceted_by : String → String → Bool) :
    FieldIdMapWithMetadata → Prop
  | new : ∀ (fim : FieldsIdsMap) (b : MetadataBuilder) (m : FieldIdMapWithMetadata),
      FieldIdMapWithMetadata.new is_faceted_by fim b = some m →
      Reachable is_faceted_by m
  | insert : ∀ (m : FieldIdMapWithMetadata) (name : String) (r : Option Nat)
      (m' : FieldIdMapWithMetadata), Reachable is_faceted_by m →
      FieldIdMapWithMetadata.insert is_faceted_by m name = some (r, m') →
      Reachable is_faceted_by m'

/-- The table/map synchronisation invariant: the keys of the metadata map are
exactly the allocated field ids, 0 … len − 1, in order. -/
def SyncInv (m : FieldIdMapWithMetadata) : Prop :=
  m.metadata.map Prod.fst = List.range m.fields_ids_map.names.length

namespace Latest_V1_13_To_Latest_V1_14

/-- Rust `Latest_V1_13_To_Latest_V1_14::upgrade` (`v1_14.rs`): opens a read
transaction and runs the external arroy migration `cosine_from_0_5_to_0_6`
over the vector store, then returns `Ok(true)` as its needs-full-reindex
signal. The transaction handles and the external migration are abstracted as
one fallible state transformation; progress reporting is observability-only
(spec §4.4) and not modelled. -/
def upgrade {σ : Type} (cosine_from_0_5_to_0_6 : σ → Except String σ)
    (index : σ) : Except String (Bool × σ) := do
  let index' ← cosine_from_0_5_to_0_6 index
  pure (true, index')

/-- Rust `Latest_V1_13_To_Latest_V1_14::target_version`. -/
def target_version : Nat × Nat × Nat := (1, 14, 0)

end Latest_V1_13_To_Latest_V1_14

/-- Spec-modelled (the pipeline driver is not under `src/`): the upgrade
pipeline's aggregate needs-reindex signal is the OR of every executed step's
signal (spec §4.4). -/
def pipeline_aggregate (signals : List Bool) : Bool := signals.any (fun b => b)

/-! Concrete fixtures used by the witness and counterexample theorems. -/

/-- Fixture matcher: no pattern facet-matches any field. -/
def ifb0 : String → String → Bool := fun _ _ => false

/-- Fixture localized rule matching exactly the field name `x`. -/
def lRule1 : LocalizedAttributesRule :=
  { match_str := fun s => if s = "x" then PatternMatch.Match else PatternMatch.NoMatch,
    locales := ["fr"] }

/-- Fixture filterable rule matching exactly the field name `x`. -/
def fRule1 : FilterableAttributesRule :=
  { match_str := fun s => if s = "x" then PatternMatch.Match else PatternMatch.NoMatch,
    features := { filter := true, facet_search := false } }

/-- Fixture builder with one localized and one filterable rule. -/
def b1 : MetadataBuilder :=
  { searchable_attributes := none, filterable_attributes := [fRule1],
    sortable_attributes := [], localized_attributes := some [lRule1] }

/-- Classification of the field `x` by `b1`. -/
def md1 : Metadata :=
  { searchable := true, sortable := false,
    localized_attributes_rule_id := some 1, filterable_attributes_rule_id := some 1 }

/-- Classification of a field matching no rule of `b1`. -/
def mdY : Metadata :=
  { searchable := true, sortable := false,
    localized_attributes_rule_id := none, filterable_attributes_rule_id := none }

/-- Fixture metadata with no filterable reference and the sortable flag set. -/
def mdNone : Metadata :=
  { searchable := true, sortable := true,
    localized_attributes_rule_id := none, filterable_attributes_rule_id := none }

/-- Fixture index whose searchable patterns contain the wildcard. -/
def idx1 : Index :=
  { user_defined_searchable_fields := Except.ok (some ["title", "*"]),
    filterable_attributes_rules := Except.ok [fRule1],
    sortable_fields := Except.ok [],
    localized_attributes_rules := Except.ok none }

/-- Fixture index with an unset searchable-patterns collection. -/
def idx2 : Index :=
  { user_defined_searchable_fields := Except.ok none,
    filterable_attributes_rules := Except.ok [fRule1],
    sortable_fields := Except.ok [],
    localized_attributes_rules := Except.ok none }

/-- Fixture rule that matches no field. -/
def rNo : FilterableAttributesRule :=
  { match_str := fun _ => PatternMatch.NoMatch,
    features := { filter := false, facet_search := false } }

/-- Fixture rule that matches every field. -/
def rYes : FilterableAttributesRule :=
  { match_str := fun _ => PatternMatch.Match,
    features := { filter := false, facet_search := false } }

/-- A filterable-rule sequence whose first matching rule sits at position
`u16Max`, one past what the `NonZeroU16` encoding can hold. -/
def bigRules : List FilterableAttributesRule :=
  List.replicate u16Max rNo ++ [rYes]

/-- Fixture index holding `bigRules`, longer than the reference encoding's
bound, with all accessors succeeding. -/
def bigIdx : Index :=
  { user_defined_searchable_fields := Except.ok none,
    filterable_attributes_rules := Except.ok bigRules,
    sortable_fields := Except.ok [],
    localized_attributes_rules := Except.ok none }

/-- The builder that `from_index` produces from `bigIdx`. -/
def bigBuilder : MetadataBuilder :=
  { searchable_attributes := none, filterable_attributes := bigRules,
    sortable_attributes := [], localized_attributes := none }

/-- Fixture empty name⇄id table. -/
def fim0 : FieldsIdsMap := { names := [] }

/-- Fixture map obtained from `new` on the empty table and `b1`. -/
def mm0 : FieldIdMapWithMetadata :=
  { fields_ids_map := fim0, builder := b1, metadata := [] }

/-! Helper lemmas about `position`, `List.get?`, the association-list model of
the `BTreeMap`, and `mapOpt`. -/

theorem position_eq_none_iff {α : Type u} (p : α → Bool) (l : List α) :
    position p l = none ↔ ∀ a ∈ l, p a = false := by
  induction l with
  | nil => simp [position]
  | cons a t ih =>
    by_cases h : p a
    · simp [position, h]
    · simp [position, h, Option.map_eq_none', ih]

theorem position_lt_length {α : Type u} (p : α → Bool) (l : List α) (i : Nat)
    (h : position p l = some i) : i < l.length := by
  induction l generalizing i with
  | nil => simp [position] at h
  | cons a t ih =>
    by_cases hp : p a
    · simp [position, hp] at h
      simp only [List.length_cons]
      omega
    · simp [position, hp, Option.map_eq_some'] at h
      obtain ⟨j, hj, rfl⟩ := h
      have := ih j hj
      simp only [List.length_cons]
      omega

theorem position_eq_some_iff {α : Type u} (p : α → Bool) (l : List α) (i : Nat) :
    position p l = some i ↔
      ∃ a, l.get? i = some a ∧ p a = true ∧
        ∀ j, j < i → ∀ b, l.get? j = some b → p b = false := by
  induction l generalizing i with
  | nil => simp [position]
  | cons x t ih =>
    by_cases hp : p x
    · constructor
      · intro h
        simp [position, hp] at h
        subst h
        exact ⟨x, rfl, hp, fun j hj b hb => absurd hj (by omega)⟩
      · rintro ⟨a, ha, hpa, hmin⟩
        match i with
        | 0 =>
          simp [position, hp]
        | i + 1 =>
          exact absurd (hmin 0 (Nat.succ_pos _) x rfl) (by simp [hp])
    · constructor
      · intro h
        simp [position, hp, Option.map_eq_some'] at h
        obtain ⟨j, hj, rfl⟩ := h
        obtain ⟨a, ha, hpa, hmin⟩ := (ih j).mp hj
        refine ⟨a, by simpa using ha, hpa, ?_⟩
        intro k hk b hb
        match k with
        | 0 =>
          simp at hb
          subst hb
          simpa using hp
        | k + 1 =>
          exact hmin k (by omega) b (by simpa using hb)
      · rintro ⟨a, ha, hpa, hmin⟩
        match i with
        | 0 =>
          simp at ha
          subst ha
          exact absurd hpa (by simp [hp])
        | i + 1 =>
          have ht : position p t = some i := by
            refine (ih i).mpr ⟨a, by simpa using ha, hpa, ?_⟩
            intro j hj b hb
            exact hmin (j + 1) (by omega) b (by simpa using hb)
          simp [position, hp, ht]

theorem find?_eq_position_bind {α : Type u} (p : α → Bool) (l : List α) :
    l.find? p = (position p l).bind l.get? := by
  induction l with
  | nil => rfl
  | cons x t ih =>
    by_cases hp : p x
    · simp [List.find?_cons, hp, position]
    · simp only [List.find?_cons, hp, position, if_neg, ih, Bool.false_eq_true,
        not_false_eq_true, if_false]
      cases h : position p t with
      | none => simp
      | some j => simp

theorem position_replicate_append {α : Type u} (p : α → Bool) (a b : α) (n : Nat)
    (ha : p a = false) (hb : p b = true) :
    position p (List.replicate n a ++ [b]) = some n := by
  induction n with
  | zero => simp [position, hb]
  | succ n ih => simp [List.replicate_succ, position, ha, ih]

theorem getQ_isSome_iff {α : Type u} (l : List α) (n : Nat) :
    (l.get? n).isSome ↔ n < l.length := by
  induction l generalizing n with
  | nil => simp
  | cons a t ih =>
    cases n with
    | zero => simp
    | succ n => simpa using ih n

theorem getQ_eq_none_of_le {α : Type u} (l : List α) (n : Nat) (h : l.length ≤ n) :
    l.get? n = none :=
  List.get?_eq_none.mpr h

theorem btGet_btInsert_self (k : Nat) (v : Metadata) (l : List (Nat × Metadata)) :
    btGet k (btInsert k v l) = some v := by
  induction l with
  | nil => simp [btInsert, btGet]
  | cons hd t ih =>
    obtain ⟨k', v'⟩ := hd
    by_cases h1 : k < k'
    · simp [btInsert, h1, btGet]
    · by_cases h2 : k = k'
      · simp [btInsert, h1, h2, btGet]
      · simp [btInsert, h1, h2, btGet, ih]

theorem btGet_isSome_iff (k : Nat) (l : List (Nat × Metadata)) :
    (btGet k l).isSome ↔ k ∈ l.map Prod.fst := by
  induction l with
  | nil => simp [btGet]
  | cons hd t ih =>
    obtain ⟨k', v'⟩ := hd
    by_cases h : k = k' <;> simp [btGet, h, ih]

theorem btInsert_of_keys_lt (k : Nat) (v : Metadata) (l : List (Nat × Metadata))
    (h : ∀ k' ∈ l.map Prod.fst, k' < k) : btInsert k v l = l ++ [(k, v)] := by
  induction l with
  | nil => rfl
  | cons hd t ih =>
    obtain ⟨k', v'⟩ := hd
    have hk' : k' < k := h k' (by simp)
    have h1 : ¬ k < k' := by omega
    have h2 : ¬ k = k' := by omega
    simp only [btInsert, if_neg h1, if_neg h2, List.cons_append, List.cons.injEq, true_and]
    exact ih (fun x hx => h x (by simp [hx]))

theorem btInsert_map_fst_of_mem (k : Nat) (v : Metadata) (l : List (Nat × Metadata))
    (hs : (l.map Prod.fst).Pairwise (· < ·)) (hm : k ∈ l.map Prod.fst) :
    (btInsert k v l).map Prod.fst = l.map Prod.fst := by
  induction l with
  | nil => simp at hm
  | cons hd t ih =>
    obtain ⟨k', v'⟩ := hd
    simp only [List.map_cons, List.pairwise_cons] at hs
    obtain ⟨hlt, hst⟩ := hs
    simp only [List.map_cons, List.mem_cons] at hm
    by_cases h2 : k = k'
    · have h1 : ¬ k < k' := by omega
      simp [btInsert, h1, h2]
    · have hkt : k ∈ t.map Prod.fst := by
        cases hm with
        | inl h => exact absurd h h2
        | inr h => exact h
      have hk'k : k' < k := hlt k hkt
      have h1 : ¬ k < k' := by omega
      simp [btInsert, h1, h2, ih hst hkt]

theorem foldl_btInsert_increasing (l : List (Nat × Metadata)) :
    ∀ acc : List (Nat × Metadata),
      (∀ ka ∈ acc.map Prod.fst, ∀ kl ∈ l.map Prod.fst, ka < kl) →
      (l.map Prod.fst).Pairwise (· < ·) →
      l.foldl (fun acc kv => btInsert kv.1 kv.2 acc) acc = acc ++ l := by
  induction l with
  | nil => intro acc _ _; simp
  | cons hd t ih =>
    intro acc hcross hl
    obtain ⟨k, v⟩ := hd
    simp only [List.map_cons, List.pairwise_cons] at hl
    obtain ⟨hkt, hts⟩ := hl
    have hins : btInsert k v acc = acc ++ [(k, v)] :=
      btInsert_of_keys_lt k v acc (fun k' hk' => hcross k' hk' k (by simp))
    rw [List.foldl_cons, hins, ih (acc ++ [(k, v)]) ?_ hts]
    · simp
    · intro ka hka kl hkl
      simp only [List.map_append, List.mem_append, List.map_cons, List.map_nil,
        List.mem_singleton] at hka
      cases hka with
      | inl h => exact hcross ka h kl (by simp [hkl])
      | inr h => subst h; exact hkt kl hkl

theorem btFromList_increasing (l : List (Nat × Metadata))
    (h : (l.map Prod.fst).Pairwise (· < ·)) : btFromList l = l := by
  have := foldl_btInsert_increasing l [] (by simp) h
  simpa [btFromList] using this

theorem mapOpt_map_fst {β : Type} (f : Nat × String → Option (Nat × β))
    (hf : ∀ p q, f p = some q → q.1 = p.1) :
    ∀ (l : List (Nat × String)) (r : List (Nat × β)),
      mapOpt f l = some r → r.map Prod.fst = l.map Prod.fst := by
  intro l
  induction l with
  | nil => intro r h; simp [mapOpt] at h; subst h; rfl
  | cons a t ih =>
    intro r h
    simp only [mapOpt] at h
    cases hfa : f a with
    | none => rw [hfa] at h; cases h
    | some q =>
      rw [hfa] at h
      simp only [Option.map_eq_some'] at h
      obtain ⟨tr, htr, rfl⟩ := h
      simp [ih tr htr, hf a q hfa]

theorem mapOpt_isSome {α : Type u} {β : Type u} (f : α → Option β) (l : List α)
    (h : ∀ a ∈ l, (f a).isSome) : (mapOpt f l).isSome := by
  induction l with
  | nil => simp [mapOpt]
  | cons a t ih =>
    have ha := h a (by simp)
    cases hfa : f a with
    | none => rw [hfa] at ha; cases ha
    | some b =>
      have ht := ih (fun x hx => h x (by simp [hx]))
      simp [mapOpt, hfa, Option.isSome_map', ht]

theorem iter_map_fst (m : FieldsIdsMap) :
    m.iter.map Prod.fst = List.range m.names.length := by
  simp [FieldsIdsMap.iter, List.map_fst_zip, List.length_range]

theorem mem_iter_fst_lt (m : FieldsIdsMap) (p : Nat × String) (h : p ∈ m.iter) :
    p.1 < m.names.length := by
  have : p.1 ∈ m.iter.map Prod.fst := List.mem_map_of_mem Prod.fst h
  rw [iter_map_fst] at this
  exact List.mem_range.mp this

theorem contains_of_mem (l : List String) (s : String) (h : s ∈ l) :
    l.contains s = true :=
  List.elem_eq_true_of_mem h

theorem encodeRuleRefOpt_none : encodeRuleRefOpt none = some none := rfl

theorem encodeRuleRefOpt_some_of_le (i : Nat) (h : i + 1 ≤ u16Max) :
    encodeRuleRefOpt (some i) = some (some (i + 1)) := by
  simp [encodeRuleRefOpt, encodeRuleRef, h]

theorem encodeRuleRefOpt_none_of_gt (i : Nat) (h : u16Max < i + 1) :
    encodeRuleRefOpt (some i) = none := by
  simp only [encodeRuleRefOpt, encodeRuleRef, if_neg (by omega : ¬ i + 1 ≤ u16Max),
    Option.map_none']

/-- Characterization of the scan-then-encode composition in
`metadata_for_field`, for rule sequences within the encoding bound: the result
is the position of the first `Match`, plus one, or `none` when no rule
matches. -/
theorem encodeRuleRefOpt_position_char {α : Type u} (matchf : α → PatternMatch)
    (l : List α) (hl : l.length ≤ u16Max) :
    ∃ v, encodeRuleRefOpt
        (position (fun a => decide (matchf a = PatternMatch.Match)) l) = some v ∧
      (∀ n, v = some n ↔ ∃ k r, n = k + 1 ∧ l.get? k = some r ∧
        matchf r = PatternMatch.Match ∧
        ∀ j r', j < k → l.get? j = some r' → matchf r' ≠ PatternMatch.Match) ∧
      (v = none ↔ ∀ r ∈ l, matchf r ≠ PatternMatch.Match) := by
  cases hp : position (fun a => decide (matchf a = PatternMatch.Match)) l with
  | none =>
    refine ⟨none, rfl, ?_, ?_⟩
    · intro n
      constructor
      · intro h; cases h
      · rintro ⟨k, r, rfl, hk, hmatch, hmin⟩
        have hpos : position (fun a => decide (matchf a = PatternMatch.Match)) l
            = some k := by
          rw [position_eq_some_iff]
          refine ⟨r, hk, by simp [hmatch], ?_⟩
          intro j hj b hb
          simpa using hmin j b hj hb
        rw [hp] at hpos
        cases hpos
    · constructor
      · intro _ r hr
        have := (position_eq_none_iff _ l).mp hp r hr
        simpa using this
      · intro _; rfl
  | some i =>
    have hi : i < l.length := position_lt_length _ l i hp
    obtain ⟨a, ha, hpa, hmin⟩ := (position_eq_some_iff _ l i).mp hp
    refine ⟨some (i + 1), ?_, ?_, ?_⟩
    · exact encodeRuleRefOpt_some_of_le i (by omega)
    · intro n
      constructor
      · intro h
        have hn : n = i + 1 := by cases h; rfl
        subst hn
        refine ⟨i, a, rfl, ha, by simpa using hpa, ?_⟩
        intro j r' hj hr' hmatch
        have := hmin j hj r' hr'
        rw [hmatch] at this
        simp at this
      · rintro ⟨k, r, rfl, hk, hmatch, hmin'⟩
        have hpos : position (fun a => decide (matchf a = PatternMatch.Match)) l
            = some k := by
          rw [position_eq_some_iff]
          refine ⟨r, hk, by simp [hmatch], ?_⟩
          intro j hj b hb
          simpa using hmin' j b hj hb
        rw [hp] at hpos
        cases hpos
        rfl
    · constructor
      · intro h; cases h
      · intro hall
        exact absurd (by simpa using hpa) (hall a (List.get?_mem ha))

/-- Introduction form of `metadata_for_field` from the two encoded scans. -/
theorem metadata_for_field_some (is_faceted_by : String → String → Bool)
    (b : MetadataBuilder) (field : String) (lid fid : Option Nat)
    (hL : encodeRuleRefOpt (position
      (fun rule => decide (rule.match_str field = PatternMatch.Match))
      (b.localized_attributes.getD [])) = some lid)
    (hF : encodeRuleRefOpt (position
      (fun rule => decide (rule.match_str field = PatternMatch.Match))
      b.filterable_attributes) = some fid) :
    b.metadata_for_field is_faceted_by field = some
      { searchable := match b.searchable_attributes with
          | some attributes => attributes.any (fun pattern => is_faceted_by field pattern)
          | none => true,
        sortable := b.sortable_attributes.any (fun pattern => is_faceted_by field pattern),
        localized_attributes_rule_id := lid,
        filterable_attributes_rule_id := fid } := by
  simp only [MetadataBuilder.metadata_for_field, hL, hF]

/-- Inversion of a successful `metadata_for_field`: both encoded scans
succeeded and produced exactly the stored rule ids. -/
theorem metadata_for_field_inv (is_faceted_by : String → String → Bool)
    (b : MetadataBuilder) (field : String) (md : Metadata)
    (h : b.metadata_for_field is_faceted_by field = some md) :
    encodeRuleRefOpt (position
      (fun rule => decide (rule.match_str field = PatternMatch.Match))
      (b.localized_attributes.getD [])) = some md.localized_attributes_rule_id ∧
    encodeRuleRefOpt (position
      (fun rule => decide (rule.match_str field = PatternMatch.Match))
      b.filterable_attributes) = some md.filterable_attributes_rule_id := by
  simp only [MetadataBuilder.metadata_for_field] at h
  split at h
  · cases h
  next lid hA =>
    split at h
    · cases h
    next fid hB =>
      injection h with h
      subst h
      exact ⟨hA, hB⟩

/-- A builder with an unset searchable-patterns collection classifies every
field as searchable (whenever classification succeeds). -/
theorem metadata_for_field_searchable_of_none (is_faceted_by : String → String → Bool)
    (b : MetadataBuilder) (field : String) (md : Metadata)
    (hb : b.searchable_attributes = none)
    (h : b.metadata_for_field is_faceted_by field = some md) :
    md.searchable = true := by
  simp only [MetadataBuilder.metadata_for_field, hb] at h
  split at h
  · cases h
  · split at h
    · cases h
    · injection h with h
      subst h
      rfl

/-- Every reachable `FieldIdMapWithMetadata` satisfies the synchronisation
invariant: metadata keys are exactly the allocated ids `0 … len − 1`. -/
theorem reachable_syncInv (is_faceted_by : String → String → Bool)
    (m : FieldIdMapWithMetadata) (h : Reachable is_faceted_by m) : SyncInv m := by
  induction h with
  | new fim b m hnew =>
    simp only [FieldIdMapWithMetadata.new, Option.map_eq_some'] at hnew
    obtain ⟨entries, hentries, rfl⟩ := hnew
    have hkeys : entries.map Prod.fst = fim.iter.map Prod.fst := by
      refine mapOpt_map_fst _ ?_ fim.iter entries hentries
      intro p q hq
      simp only [Option.map_eq_some'] at hq
      obtain ⟨md, _, rfl⟩ := hq
      rfl
    have hrange : entries.map Prod.fst = List.range fim.names.length := by
      rw [hkeys, iter_map_fst]
    have hpair : (entries.map Prod.fst).Pairwise (· < ·) := by
      rw [hrange]
      exact List.pairwise_lt_range _
    show (btFromList entries).map Prod.fst = _
    rw [btFromList_increasing entries hpair, hrange]
  | insert m name r m' hre hins ih =>
    simp only [FieldIdMapWithMetadata.insert] at hins
    split at hins
    next hti =>
      injection hins with hins
      simp only [Prod.mk.injEq] at hins
      obtain ⟨-, rfl⟩ := hins
      exact ih
    next id t hti =>
      split at hins
      · cases hins
      next md hmd =>
        injection hins with hins
        simp only [Prod.mk.injEq] at hins
        obtain ⟨-, rfl⟩ := hins
        simp only [FieldsIdsMap.insert] at hti
        split at hti
        next i hid =>
          injection hti with hti
          simp only [Prod.mk.injEq] at hti
          obtain ⟨rfl, rfl⟩ := hti
          have hlt : i < m.fields_ids_map.names.length :=
            position_lt_length _ _ _ hid
          show (btInsert i md m.metadata).map Prod.fst = _
          rw [btInsert_map_fst_of_mem i md m.metadata (by
              rw [ih]
              exact List.pairwise_lt_range _)
            (by
              rw [ih]
              exact List.mem_range.mpr hlt)]
          exact ih
        next hid =>
          split at hti
          next hcap =>
            injection hti with hti
            simp only [Prod.mk.injEq] at hti
            obtain ⟨rfl, rfl⟩ := hti
            show (btInsert m.fields_ids_map.names.length md m.metadata).map Prod.fst = _
            rw [btInsert_of_keys_lt _ _ _ (by
              intro k' hk'
              rw [ih] at hk'
              exact List.mem_range.mp hk')]
            rw [List.map_append, ih]
            simp [List.range_succ]
          · cases hti

/-- C9: `FieldIdMapWithMetadata::insert` returns the absent id exactly when the
name⇄id table's insert returns `none` (id space exhausted), and in that case
the whole state — in particular the metadata map — is unchanged and no
`Metadata` is computed or stored; on `some id`, the `Metadata` computed by the
owned builder for the name is stored under `id` before `insert` returns. -/
theorem C9_insert_delegation (is_faceted_by : String → String → Bool)
    (m : FieldIdMapWithMetadata) (name : String) :
    (FieldIdMapWithMetadata.insert is_faceted_by m name = some (none, m) ↔
      m.fields_ids_map.insert name = none) ∧
    (∀ id t md, m.fields_ids_map.insert name = some (id, t) →
      m.builder.metadata_for_field is_faceted_by name = some md →
      ∃ m', FieldIdMapWithMetadata.insert is_faceted_by m name = some (some id, m') ∧
        m'.fields_ids_map = t ∧ m'.builder = m.builder ∧
        m'.metadata_of id = some md) := by
  constructor
  · constructor
    · intro h
      cases hti : m.fields_ids_map.insert name with
      | none => rfl
      | some p =>
        obtain ⟨id, t⟩ := p
        simp only [FieldIdMapWithMetadata.insert, hti] at h
        cases hmd : m.builder.metadata_for_field is_faceted_by name with
        | none => rw [hmd] at h; cases h
        | some md =>
          rw [hmd] at h
          injection h with h
          simp only [Prod.mk.injEq] at h
          cases h.1
    · intro hti
      simp [FieldIdMapWithMetadata.insert, hti]
  · intro id t md hti hmd
    refine ⟨{ fields_ids_map := t, builder := m.builder,
              metadata := btInsert id md m.metadata }, ?_, rfl, rfl, ?_⟩
    · simp [FieldIdMapWithMetadata.insert, hti, hmd]
    · exact btGet_btInsert_self id md m.metadata

/-- Witness for C9 at a concrete map and fresh field name. -/
theorem C9_witness :
    ∃ m', FieldIdMapWithMetadata.insert ifb0 mm0 "y" = some (some 0, m') ∧
      m'.fields_ids_map = ⟨["y"]⟩ ∧ m'.builder = mm0.builder ∧
      m'.metadata_of 0 = some mdY :=
  (C9_insert_delegation ifb0 mm0 "y").2 0 ⟨["y"]⟩ mdY (by decide) (by decide)

/-- C7: every id yielded by `insert` has a retrievable `Metadata` immediately
after the call, and on every reachable state the set of ids of the name⇄id
table equals the set of keys of the metadata map, so their counts agree. -/
theorem C7_sync_invariant (is_faceted_by : String → String → Bool)
    (m : FieldIdMapWithMetadata) (h : Reachable is_faceted_by m) :
    (∀ name r m', FieldIdMapWithMetadata.insert is_faceted_by m name = some (r, m') →
      ∀ id, r = some id → (m'.metadata_of id).isSome = true) ∧
    (∀ id, (m.fields_ids_map.name id).isSome = true ↔ (m.metadata_of id).isSome = true) ∧
    m.metadata.length = m.fields_ids_map.len := by
  have hinv := reachable_syncInv is_faceted_by m h
  refine ⟨?_, ?_, ?_⟩
  · intro name r m' hins id hr
    subst hr
    simp only [FieldIdMapWithMetadata.insert] at hins
    split at hins
    next hti =>
      injection hins with hins
      simp only [Prod.mk.injEq] at hins
      cases hins.1
    next id0 t hti =>
      split at hins
      · cases hins
      next md hmd =>
        injection hins with hins
        simp only [Prod.mk.injEq] at hins
        obtain ⟨h1, rfl⟩ := hins
        injection h1 with h1
        subst h1
        show (btGet id0 (btInsert id0 md m.metadata)).isSome = true
        rw [btGet_btInsert_self]
        rfl
  · intro id
    rw [show m.fields_ids_map.name id = m.fields_ids_map.names.get? id from rfl,
      getQ_isSome_iff,
      show m.metadata_of id = btGet id m.metadata from rfl,
      btGet_isSome_iff, hinv, List.mem_range]
  · have := congrArg List.length hinv
    simpa [FieldsIdsMap.len] using this

/-- Witness for C7 at a concrete reachable state. -/
theorem C7_witness :
    (∀ name r m', FieldIdMapWithMetadata.insert ifb0 mm0 name = some (r, m') →
      ∀ id, r = some id → (m'.metadata_of id).isSome = true) ∧
    (∀ id, (mm0.fields_ids_map.name id).isSome = true ↔
      (mm0.metadata_of id).isSome = true) ∧
    mm0.metadata.length = mm0.fields_ids_map.len :=
  C7_sync_invariant ifb0 mm0 (Reachable.new fim0 b1 mm0 rfl)

/-- C10: on every reachable state the metadata lookups unwrapped inside
`id_with_metadata`, `name_with_metadata` and `iter` never abort: whenever the
name⇄id table yields an id, `metadata` for it is present, so these operations
return normally. -/
theorem C10_lookups_never_abort (is_faceted_by : String → String → Bool)
    (m : FieldIdMapWithMetadata) (h : Reachable is_faceted_by m) :
    (∀ name, (m.id_with_metadata name).isSome = true) ∧
    (∀ id, (m.name_with_metadata id).isSome = true) ∧
    (m.iter).isSome = true := by
  have hinv := reachable_syncInv is_faceted_by m h
  have hmd : ∀ id, id < m.fields_ids_map.names.length →
      (m.metadata_of id).isSome = true := by
    intro id hid
    show (btGet id m.metadata).isSome = true
    rw [btGet_isSome_iff, hinv]
    exact List.mem_range.mpr hid
  refine ⟨?_, ?_, ?_⟩
  · intro name
    simp only [FieldIdMapWithMetadata.id_with_metadata]
    cases hid : m.fields_ids_map.id name with
    | none => rfl
    | some id =>
      have hlt : id < m.fields_ids_map.names.length := position_lt_length _ _ _ hid
      show ((m.metadata_of id).map (fun md => some (id, md))).isSome = true
      rw [Option.isSome_map']
      exact hmd id hlt
  · intro id
    simp only [FieldIdMapWithMetadata.name_with_metadata]
    cases hn : m.fields_ids_map.name id with
    | none => rfl
    | some s =>
      have hsome : (m.fields_ids_map.names.get? id).isSome = true := by
        rw [show m.fields_ids_map.name id = m.fields_ids_map.names.get? id from rfl] at hn
        rw [hn]
        rfl
      show ((m.metadata_of id).map (fun md => some (s, md))).isSome = true
      rw [Option.isSome_map']
      exact hmd id ((getQ_isSome_iff _ _).mp hsome)
  · show (mapOpt (fun p => (m.metadata_of p.1).map (fun md => (p.1, p.2, md)))
      m.fields_ids_map.iter).isSome = true
    refine mapOpt_isSome _ _ ?_
    intro p hp
    rw [Option.isSome_map']
    exact hmd p.1 (mem_iter_fst_lt _ p hp)

/-- Witness for C10 at a concrete reachable state. -/
theorem C10_witness :
    (∀ name, (mm0.id_with_metadata name).isSome = true) ∧
    (∀ id, (mm0.name_with_metadata id).isSome = true) ∧
    (mm0.iter).isSome = true :=
  C10_lookups_never_abort ifb0 mm0 (Reachable.new fim0 b1 mm0 rfl)

/-- C5: a field with an absent filterable rule reference gets the all-disabled
feature value from `filterable_attributes_features`, and `is_faceted` over the
same rule sequence is true iff the sortable flag is true. -/
theorem C5_no_features_by_default (md : Metadata) (rules : List FilterableAttributesRule)
    (h : md.filterable_attributes_rule_id = none) :
    md.filterable_attributes_features rules = some FilterableAttributesFeatures.no_features ∧
    (md.is_faceted rules = some true ↔ md.sortable = true) := by
  have hfa : md.filterable_attributes rules = some none := by
    simp [Metadata.filterable_attributes, h]
  constructor
  · simp [Metadata.filterable_attributes_features, hfa]
  · cases hs : md.sortable with
    | true => simp [Metadata.is_faceted, Metadata.is_sortable, hs]
    | false =>
      simp [Metadata.is_faceted, Metadata.is_sortable, hs,
        Metadata.filterable_attributes_features, hfa,
        FilterableAttributesFeatures.no_features,
        FilterableAttributesFeatures.is_filterable,
        FilterableAttributesFeatures.is_facet_searchable]

/-- Witness for C5 at a concrete metadata value and rule sequence. -/
theorem C5_witness :
    mdNone.filterable_attributes_features [fRule1] =
      some FilterableAttributesFeatures.no_features ∧
    (mdNone.is_faceted [fRule1] = some true ↔ mdNone.sortable = true) :=
  C5_no_features_by_default mdNone [fRule1] rfl

/-- C6: whenever the filterable features resolve, `is_faceted` is true iff the
field is sortable, or the features indicate filterable, or they indicate facet
searchable; otherwise it is false. -/
theorem C6_is_faceted_characterization (md : Metadata)
    (rules : List FilterableAttributesRule) (fs : FilterableAttributesFeatures)
    (h : md.filterable_attributes_features rules = some fs) :
    md.is_faceted rules =
      some (md.sortable || (fs.is_filterable || fs.is_facet_searchable)) := by
  cases hs : md.sortable with
  | true => simp [Metadata.is_faceted, Metadata.is_sortable, hs]
  | false =>
    simp only [Metadata.is_faceted, Metadata.is_sortable, hs, if_false,
      Bool.false_eq_true, h, Option.map_some', Bool.false_or]
    cases hf : fs.is_filterable with
    | true => simp [hf]
    | false =>
      cases hc : fs.is_facet_searchable with
      | true => simp [hf, hc]
      | false => simp [hf, hc]

/-- Witness for C6 at a concrete metadata value, rule sequence and features. -/
theorem C6_witness :
    md1.is_faceted [fRule1] =
      some (md1.sortable ||
        ((⟨true, false⟩ : FilterableAttributesFeatures).is_filterable ||
          (⟨true, false⟩ : FilterableAttributesFeatures).is_facet_searchable)) :=
  C6_is_faceted_characterization md1 [fRule1] ⟨true, false⟩ (by decide)

/-- Inversion of a successful `encodeRuleRefOpt`: either there was no scan
position and the reference is absent, or the reference is the position plus
one and fits the encoding. -/
theorem encodeRuleRefOpt_inv (pos : Option Nat) (v : Option Nat)
    (h : encodeRuleRefOpt pos = some v) :
    (pos = none ∧ v = none) ∨
    (∃ i, pos = some i ∧ v = some (i + 1) ∧ i + 1 ≤ u16Max) := by
  cases pos with
  | none =>
    left
    refine ⟨rfl, ?_⟩
    injection h with h
    exact h.symm
  | some i =>
    right
    simp only [encodeRuleRefOpt, encodeRuleRef] at h
    split at h
    next hle =>
      simp only [Option.map_some'] at h
      injection h with h
      exact ⟨i, rfl, h.symm, hle⟩
    next => simp at h

/-- C1: for every field name and every non-empty rule sequence within the
reference encoding's bound, `metadata_for_field` succeeds; each rule reference
is present with value `position + 1` exactly for the lowest-indexed rule whose
matcher returns `Match`, and is absent iff no rule of the sequence matches. -/
theorem C1_first_match_encoding (is_faceted_by : String → String → Bool)
    (b : MetadataBuilder) (field : String)
    (hL : (b.localized_attributes.getD []).length ≤ u16Max)
    (hF : b.filterable_attributes.length ≤ u16Max)
    (hneL : b.localized_attributes.getD [] ≠ [])
    (hneF : b.filterable_attributes ≠ []) :
    ∃ md, b.metadata_for_field is_faceted_by field = some md ∧
      (∀ n, md.localized_attributes_rule_id = some n ↔
        ∃ k r, n = k + 1 ∧ (b.localized_attributes.getD []).get? k = some r ∧
          r.match_str field = PatternMatch.Match ∧
          ∀ j r', j < k → (b.localized_attributes.getD []).get? j = some r' →
            r'.match_str field ≠ PatternMatch.Match) ∧
      (md.localized_attributes_rule_id = none ↔
        ∀ r ∈ b.localized_attributes.getD [],
          r.match_str field ≠ PatternMatch.Match) ∧
      (∀ n, md.filterable_attributes_rule_id = some n ↔
        ∃ k r, n = k + 1 ∧ b.filterable_attributes.get? k = some r ∧
          r.match_str field = PatternMatch.Match ∧
          ∀ j r', j < k → b.filterable_attributes.get? j = some r' →
            r'.match_str field ≠ PatternMatch.Match) ∧
      (md.filterable_attributes_rule_id = none ↔
        ∀ r ∈ b.filterable_attributes, r.match_str field ≠ PatternMatch.Match) := by
  obtain ⟨vL, hvL, hLsome, hLnone⟩ :=
    encodeRuleRefOpt_position_char (fun rule => rule.match_str field)
      (b.localized_attributes.getD []) hL
  obtain ⟨vF, hvF, hFsome, hFnone⟩ :=
    encodeRuleRefOpt_position_char (fun rule => rule.match_str field)
      b.filterable_attributes hF
  exact ⟨_, metadata_for_field_some is_faceted_by b field vL vF hvL hvF,
    hLsome, hLnone, hFsome, hFnone⟩

/-- Witness for C1 at a concrete builder and field. -/
theorem C1_witness :
    ∃ md, b1.metadata_for_field ifb0 "x" = some md ∧
      (∀ n, md.localized_attributes_rule_id = some n ↔
        ∃ k r, n = k + 1 ∧ (b1.localized_attributes.getD []).get? k = some r ∧
          r.match_str "x" = PatternMatch.Match ∧
          ∀ j r', j < k → (b1.localized_attributes.getD []).get? j = some r' →
            r'.match_str "x" ≠ PatternMatch.Match) ∧
      (md.localized_attributes_rule_id = none ↔
        ∀ r ∈ b1.localized_attributes.getD [],
          r.match_str "x" ≠ PatternMatch.Match) ∧
      (∀ n, md.filterable_attributes_rule_id = some n ↔
        ∃ k r, n = k + 1 ∧ b1.filterable_attributes.get? k = some r ∧
          r.match_str "x" = PatternMatch.Match ∧
          ∀ j r', j < k → b1.filterable_attributes.get? j = some r' →
            r'.match_str "x" ≠ PatternMatch.Match) ∧
      (md.filterable_attributes_rule_id = none ↔
        ∀ r ∈ b1.filterable_attributes, r.match_str "x" ≠ PatternMatch.Match) :=
  C1_first_match_encoding ifb0 b1 "x" (by decide) (by decide)
    (by simp [b1]) (by simp [b1])

/-- C8: a present rule reference resolved against the same sequence the
builder used yields exactly the first rule of that sequence matching the
field (its language tags for `locales`, the rule itself for
`filterable_attributes`); an absent reference resolves to absent against any
sequence; and a present reference resolved against a sequence shorter than
the encoded index aborts instead of answering. -/
theorem C8_reference_round_trip (is_faceted_by : String → String → Bool)
    (b : MetadataBuilder) (field : String) (md : Metadata)
    (hm : b.metadata_for_field is_faceted_by field = some md) :
    (∀ v, md.localized_attributes_rule_id = some v →
      ∃ r, (b.localized_attributes.getD []).find?
          (fun rule => decide (rule.match_str field = PatternMatch.Match)) = some r ∧
        md.locales (b.localized_attributes.getD []) = some (some r.locales) ∧
        ∀ rules : List LocalizedAttributesRule, rules.length < v →
          md.locales rules = none) ∧
    (md.localized_attributes_rule_id = none →
      ∀ rules, md.locales rules = some none) ∧
    (∀ v, md.filterable_attributes_rule_id = some v →
      ∃ r, b.filterable_attributes.find?
          (fun rule => decide (rule.match_str field = PatternMatch.Match)) = some r ∧
        md.filterable_attributes b.filterable_attributes = some (some r) ∧
        ∀ rules : List FilterableAttributesRule, rules.length < v →
          md.filterable_attributes rules = none) ∧
    (md.filterable_attributes_rule_id = none →
      ∀ rules, md.filterable_attributes rules = some none) := by
  obtain ⟨hLenc, hFenc⟩ := metadata_for_field_inv is_faceted_by b field md hm
  refine ⟨?_, ?_, ?_, ?_⟩
  · intro v hv
    rw [hv] at hLenc
    obtain (⟨hpos, hnone⟩ | ⟨i, hpos, hvv, hle⟩) := encodeRuleRefOpt_inv _ _ hLenc
    · cases hnone
    · injection hvv with hvv
      subst hvv
      obtain ⟨a, ha, hpa, hmin⟩ := (position_eq_some_iff _ _ _).mp hpos
      refine ⟨a, ?_, ?_, ?_⟩
      · rw [find?_eq_position_bind, hpos]
        exact ha
      · simp only [Metadata.locales, hv, Nat.add_sub_cancel, ha]
      · intro rules hlen
        simp only [Metadata.locales, hv, Nat.add_sub_cancel,
          getQ_eq_none_of_le rules i (by omega)]
  · intro hnone rules
    simp [Metadata.locales, hnone]
  · intro v hv
    rw [hv] at hFenc
    obtain (⟨hpos, hnone⟩ | ⟨i, hpos, hvv, hle⟩) := encodeRuleRefOpt_inv _ _ hFenc
    · cases hnone
    · injection hvv with hvv
      subst hvv
      obtain ⟨a, ha, hpa, hmin⟩ := (position_eq_some_iff _ _ _).mp hpos
      refine ⟨a, ?_, ?_, ?_⟩
      · rw [find?_eq_position_bind, hpos]
        exact ha
      · simp only [Metadata.filterable_attributes, hv, Nat.add_sub_cancel, ha]
      · intro rules hlen
        simp only [Metadata.filterable_attributes, hv, Nat.add_sub_cancel,
          getQ_eq_none_of_le rules i (by omega)]
  · intro hnone rules
    simp [Metadata.filterable_attributes, hnone]

/-- Witness for C8 at a concrete builder, field and metadata. -/
theorem C8_witness :
    (∀ v, md1.localized_attributes_rule_id = some v →
      ∃ r, (b1.localized_attributes.getD []).find?
          (fun rule => decide (rule.match_str "x" = PatternMatch.Match)) = some r ∧
        md1.locales (b1.localized_attributes.getD []) = some (some r.locales) ∧
        ∀ rules : List LocalizedAttributesRule, rules.length < v →
          md1.locales rules = none) ∧
    (md1.localized_attributes_rule_id = none →
      ∀ rules, md1.locales rules = some none) ∧
    (∀ v, md1.filterable_attributes_rule_id = some v →
      ∃ r, b1.filterable_attributes.find?
          (fun rule => decide (rule.match_str "x" = PatternMatch.Match)) = some r ∧
        md1.filterable_attributes b1.filterable_attributes = some (some r) ∧
        ∀ rules : List FilterableAttributesRule, rules.length < v →
          md1.filterable_attributes rules = none) ∧
    (md1.filterable_attributes_rule_id = none →
      ∀ rules, md1.filterable_attributes rules = some none) :=
  C8_reference_round_trip ifb0 b1 "x" md1 (by decide)

theorem exceptBind_ok {α β : Type} (a : α) (f : α → Except String β) :
    (Except.ok a : Except String α) >>= f = f a := rfl

theorem exceptBind_error {α β : Type} (e : String) (f : α → Except String β) :
    (Except.error e : Except String α) >>= f = Except.error e := rfl

theorem exceptMap_ok {α β : Type} (a : α) (f : α → β) :
    f <$> (Except.ok a : Except String α) = Except.ok (f a) := rfl

theorem exceptMap_error {α β : Type} (e : String) (f : α → β) :
    f <$> (Except.error e : Except String α) = Except.error e := rfl

theorem exceptPure {α : Type} (a : α) : (pure a : Except String α) = Except.ok a := rfl

/-- C2: a loaded searchable-patterns collection containing the wildcard `*` at
any position makes the constructed builder identical to the one built from an
unset collection, and every successful classification marks the field
searchable. -/
theorem C2_wildcard_collapse (index : Index) (pats : List String)
    (h : index.user_defined_searchable_fields = Except.ok (some pats))
    (hw : "*" ∈ pats) :
    MetadataBuilder.from_index index =
      MetadataBuilder.from_index
        { index with user_defined_searchable_fields := Except.ok none } ∧
    ∀ b, MetadataBuilder.from_index index = Except.ok b →
      ∀ (is_faceted_by : String → String → Bool) (field : String) (md : Metadata),
        b.metadata_for_field is_faceted_by field = some md → md.searchable = true := by
  have hc : pats.contains "*" = true := contains_of_mem pats "*" hw
  constructor
  · simp [MetadataBuilder.from_index, h, hc, hw, exceptBind_ok, exceptMap_ok]
  · intro b hb is_faceted_by field md hmd
    refine metadata_for_field_searchable_of_none is_faceted_by b field md ?_ hmd
    cases hf : index.filterable_attributes_rules with
    | error e =>
      simp [MetadataBuilder.from_index, h, hc, hw, hf, exceptBind_ok, exceptBind_error,
        exceptMap_ok, exceptMap_error] at hb
    | ok fr =>
      cases hs : index.sortable_fields with
      | error e =>
        simp [MetadataBuilder.from_index, h, hc, hw, hf, hs, exceptBind_ok,
          exceptBind_error, exceptMap_ok, exceptMap_error] at hb
      | ok sf =>
        cases hl : index.localized_attributes_rules with
        | error e =>
          simp [MetadataBuilder.from_index, h, hc, hw, hf, hs, hl, exceptBind_ok,
            exceptBind_error, exceptMap_ok, exceptMap_error] at hb
        | ok lr =>
          simp only [MetadataBuilder.from_index, h, hc, hw, hf, hs, hl, exceptBind_ok,
            exceptMap_ok, exceptPure, if_true, Except.ok.injEq] at hb
          subst hb
          rfl

/-- Witness for C2 at a concrete index whose patterns contain the wildcard. -/
theorem C2_witness :
    MetadataBuilder.from_index idx1 =
      MetadataBuilder.from_index
        { idx1 with user_defined_searchable_fields := Except.ok none } ∧
    ∀ b, MetadataBuilder.from_index idx1 = Except.ok b →
      ∀ (is_faceted_by : String → String → Bool) (field : String) (md : Metadata),
        b.metadata_for_field is_faceted_by field = some md → md.searchable = true :=
  C2_wildcard_collapse idx1 ["title", "*"] rfl (by simp)

/-- Classification aborts whenever the first matching filterable rule sits at
a position that does not fit the `NonZeroU16` encoding. -/
theorem metadata_for_field_abort_of_overflow (is_faceted_by : String → String → Bool)
    (b : MetadataBuilder) (field : String) (i : Nat)
    (hp : position (fun rule => decide (rule.match_str field = PatternMatch.Match))
      b.filterable_attributes = some i)
    (hle : u16Max ≤ i) :
    b.metadata_for_field is_faceted_by field = none := by
  cases hA : encodeRuleRefOpt (position
      (fun rule => decide (rule.match_str field = PatternMatch.Match))
      (b.localized_attributes.getD [])) with
  | none => simp [MetadataBuilder.metadata_for_field, hA]
  | some lid =>
    simp [MetadataBuilder.metadata_for_field, hA, hp,
      encodeRuleRefOpt_none_of_gt i (by omega)]

/-- C4 counterexample: building from an index holding `bigRules` — a rule
sequence longer than the `NonZeroU16` bound — succeeds (no error at
construction time), and the bound instead surfaces per field at classification
time, where `metadata_for_field` aborts. -/
theorem C4_counterexample :
    MetadataBuilder.from_index bigIdx = Except.ok bigBuilder ∧
    bigBuilder.metadata_for_field ifb0 "f" = none := by
  have hp : position
      (fun rule => decide (rule.match_str "f" = PatternMatch.Match))
      bigBuilder.filterable_attributes = some u16Max :=
    position_replicate_append _ rNo rYes u16Max (by decide) (by decide)
  exact ⟨rfl,
    metadata_for_field_abort_of_overflow ifb0 bigBuilder "f" u16Max hp
      (Nat.le_refl u16Max)⟩

/-- C4 amended: `from_index` performs no bound check — construction succeeds
whenever the configuration accessors succeed, storing the rule sequences
verbatim (no truncation) — and the 16-bit reference bound is enforced only per
field at classification time: when the first matching filterable rule sits at a
position that does not fit the `NonZeroU16`, `metadata_for_field` aborts
instead of truncating or mis-encoding. -/
theorem C4_amended_bound_at_classification :
    (∀ (index : Index) (uds : Option (List String))
      (fr : List FilterableAttributesRule) (sf : List String)
      (lr : Option (List LocalizedAttributesRule)),
      index.user_defined_searchable_fields = Except.ok uds →
      index.filterable_attributes_rules = Except.ok fr →
      index.sortable_fields = Except.ok sf →
      index.localized_attributes_rules = Except.ok lr →
      ∃ b, MetadataBuilder.from_index index = Except.ok b ∧
        b.filterable_attributes = fr ∧ b.localized_attributes = lr) ∧
    (∀ (is_faceted_by : String → String → Bool) (b : MetadataBuilder)
      (field : String) (i : Nat),
      position (fun rule => decide (rule.match_str field = PatternMatch.Match))
        b.filterable_attributes = some i →
      u16Max ≤ i →
      b.metadata_for_field is_faceted_by field = none) := by
  constructor
  · intro index uds fr sf lr hu hf hs hl
    cases uds with
    | none =>
      refine ⟨{ searchable_attributes := none, filterable_attributes := fr,
                sortable_attributes := sf, localized_attributes := lr }, ?_, rfl, rfl⟩
      simp [MetadataBuilder.from_index, hu, hf, hs, hl, exceptBind_ok, exceptMap_ok,
        exceptPure]
    | some fields =>
      by_cases hc : "*" ∈ fields
      · refine ⟨{ searchable_attributes := none, filterable_attributes := fr,
                  sortable_attributes := sf, localized_attributes := lr }, ?_, rfl, rfl⟩
        simp [MetadataBuilder.from_index, hu, hf, hs, hl, hc, exceptBind_ok,
          exceptMap_ok, exceptPure]
      · refine ⟨{ searchable_attributes := some fields, filterable_attributes := fr,
                  sortable_attributes := sf, localized_attributes := lr }, ?_, rfl, rfl⟩
        simp [MetadataBuilder.from_index, hu, hf, hs, hl, hc, exceptBind_ok,
          exceptMap_ok, exceptPure]
  · intro is_faceted_by b field i hp hle
    cases hA : encodeRuleRefOpt (position
        (fun rule => decide (rule.match_str field = PatternMatch.Match))
        (b.localized_attributes.getD [])) with
    | none => simp [MetadataBuilder.metadata_for_field, hA]
    | some lid =>
      simp [MetadataBuilder.metadata_for_field, hA, hp,
        encodeRuleRefOpt_none_of_gt i (by omega)]

/-- Witness for the amended C4: construction succeeds on a concrete index, and
classification aborts on the concrete over-long rule sequence. -/
theorem C4_witness :
    (∃ b, MetadataBuilder.from_index idx2 = Except.ok b ∧
      b.filterable_attributes = [fRule1] ∧ b.localized_attributes = none) ∧
    bigBuilder.metadata_for_field ifb0 "f" = none :=
  ⟨C4_amended_bound_at_classification.1 idx2 none [fRule1] [] none rfl rfl rfl rfl,
   C4_amended_bound_at_classification.2 ifb0 bigBuilder "f" u16Max
     (position_replicate_append _ rNo rYes u16Max (by decide) (by decide))
     (Nat.le_refl u16Max)⟩

/-- C3 counterexample: on a successful run the v1.13 → v1.14 step's
needs-full-reindex signal is `true`, not `false` as the claim states. -/
theorem C3_counterexample :
    Latest_V1_13_To_Latest_V1_14.upgrade (fun s : Unit => Except.ok s) ()
      = Except.ok (true, ()) ∧
    (Except.ok (true, ()) : Except String (Bool × Unit)) ≠ Except.ok (false, ()) :=
  ⟨rfl, by simp⟩

/-- C3 amended: the step declares target version (1, 14, 0); on a successful
run its needs-full-reindex signal is `true`, and — as the only executed step —
that signal is the pipeline's aggregate result. -/
theorem C3_amended_signal_true :
    Latest_V1_13_To_Latest_V1_14.target_version = (1, 14, 0) ∧
    ∀ (σ : Type) (mig : σ → Except String σ) (st st' : σ), mig st = Except.ok st' →
      Latest_V1_13_To_Latest_V1_14.upgrade mig st = Except.ok (true, st') ∧
      pipeline_aggregate [true] = true := by
  refine ⟨rfl, ?_⟩
  intro σ mig st st' hmig
  refine ⟨?_, rfl⟩
  simp [Latest_V1_13_To_Latest_V1_14.upgrade, hmig]

/-- Witness for the amended C3 at a concrete migration function and store. -/
theorem C3_witness :
    Latest_V1_13_To_Latest_V1_14.upgrade (fun s : Unit => Except.ok s) ()
      = Except.ok (true, ()) ∧
    pipeline_aggregate [true] = true :=
  C3_amended_signal_true.2 Unit (fun s => Except.ok s) () () rfl
